import Mathlib

/-
Verification of the data-aggregation core of `overiva_sim_plot.py`.

The script loads per-run JSON records, aggregates them into a table of
rows (one per surviving record), caches the table, and computes
ratio-of-medians point sequences (`proc_ratio`).

Modelling conventions for the shallow embedding:
- Python float values are modelled as `FV := Option ℚ`: `none` stands for
  NaN (and for a missing entry in a pandas frame, which pandas also
  represents as NaN), `some q` for the finite value `q`.  Infinities do
  not arise in the modelled fragment (runtimes and their medians are
  finite, and baseline medians are nonzero; theorems about division
  carry the corresponding positivity hypotheses).
- A JSON record is a dictionary, so every field of `RawRecord` is
  wrapped in `Option`: the outer `none` means the key is absent
  (a lookup raises `KeyError`).
- Exceptions are modelled by `Except String`; the string is the kind of
  the Python exception.  The bare `except: continue` of the aggregation
  loop is modelled by the `Option` result of `tryImprovements`.
-/

/-- A Python float: `none` is NaN, `some q` a finite value. -/
abbrev FV := Option ℚ

/-- Elementwise float subtraction: NaN propagates (numpy `-`). -/
def fsub (x y : FV) : FV :=
  match x, y with
  | some a, some b => some (a - b)
  | _, _ => none

/-- All entries of a float array, provided none is NaN. -/
def allSome : List FV → Option (List ℚ)
  | [] => some []
  | none :: _ => none
  | some q :: xs => (allSome xs).map (fun qs => q :: qs)

/-- `np.mean` on a 1-D float array: NaN if the array is empty or
contains a NaN, otherwise the sum divided by the length. -/
def fmean (v : List FV) : FV :=
  match allSome v with
  | none => none
  | some qs => if qs.length = 0 then none else some (qs.sum / (qs.length : ℚ))

/-- numpy broadcast subtraction of two 1-D arrays: defined when the
lengths agree or one of the arrays has length 1; otherwise the
operation raises (modelled as `none`). -/
def bsub (xs ys : List FV) : Option (List FV) :=
  if xs.length = ys.length then some (List.zipWith fsub xs ys)
  else
    match xs, ys with
    | [x], l => some (l.map (fun y => fsub x y))
    | l, [y] => some (l.map (fun x => fsub x y))
    | _, _ => none

/-- Mean of a list of rationals (the specification-side mean used to
state independence properties). -/
def qmean (v : List ℚ) : ℚ := v.sum / (v.length : ℚ)

/-- A raw run record, i.e. one JSON object from `data.json`.  Every
field is optional because a dictionary key may be absent. -/
structure RawRecord where
  algorithm : Option String
  n_targets : Option ℕ
  n_mics : Option ℕ
  rt60 : Option ℚ
  sinr : Option ℚ
  seed : Option ℤ
  runtime : Option FV
  n_samples : Option ℕ
  sdr : Option (List (List FV))
  sir : Option (List (List FV))

/-- One row of the aggregated table, in the column order
`Algorithm, Sources, Mics, RT60, SINR, seed, Runtime [s], SDR [dB],
SIR [dB], SDR Improvement [dB], SIR Improvement [dB]`. -/
structure AggregatedRow where
  algorithm : String
  sources : ℕ
  mics : ℕ
  rt60 : ℚ
  sinr : ℚ
  seed : ℤ
  runtime : FV
  sdrFinal : FV
  sirFinal : FV
  sdrImp : FV
  sirImp : FV

/-- Dictionary lookup `record[field]`: raises `KeyError` when absent. -/
def getField {α : Type} (x : Option α) (name : String) : Except String α :=
  match x with
  | some v => Except.ok v
  | none => Except.error ("KeyError: " ++ name)

/-- List indexing `l[0]` / `l[-1]`: raises `IndexError` on an empty list. -/
def getIndex {α : Type} (x : Option α) : Except String α :=
  match x with
  | some v => Except.ok v
  | none => Except.error "IndexError: list index out of range"

/-- The `try` block of the aggregation loop (lines 228-244 of the
source): read the initial vectors, subtract (numpy broadcast), and take
means; any exception is modelled by `none` and makes the caller drop
the record. -/
def tryImprovements (sdr sir : List (List FV)) (sdrLast sirLast : List FV) :
    Option (FV × FV × FV × FV) := do
  let sdr_i ← sdr.head?
  let sir_i ← sir.head?
  let dsdr ← bsub sdrLast sdr_i
  let dsir ← bsub sirLast sir_i
  pure (fmean sdrLast, fmean sirLast, fmean dsdr, fmean dsir)

/-- One iteration of the record aggregation loop (lines 212-244 of the
source).  Field lookups and the final-iteration indexing happen outside
the `try` block, so their failures abort the whole run (`Except.error`);
only a failure inside `tryImprovements` drops the record (`none` row).
Returns the warnings emitted together with the optional row. -/
def processRecord (fs? : Option ℚ) (r : RawRecord) :
    Except String (List String × Option AggregatedRow) := do
  let alg ← getField r.algorithm "algorithm"
  let nt ← getField r.n_targets "n_targets"
  let nm ← getField r.n_mics "n_mics"
  let rt ← getField r.rt60 "rt60"
  let si ← getField r.sinr "sinr"
  let sd ← getField r.seed "seed"
  let rtv ← getField r.runtime "runtime"
  let ns ← getField r.n_samples "n_samples"
  let fs ← getField fs? "fs"
  let runtimeCol : FV := rtv.map (fun x => x / (ns : ℚ) * fs)
  let warnRuntime := if rtv.isNone then ["NaN runtime: " ++ alg] else []
  let sdrM ← getField r.sdr "sdr"
  let sdrLast ← getIndex sdrM.getLast?
  let warnSdr := if sdrLast.any (fun x => x.isNone) then ["NaN SDR: " ++ alg] else []
  let sirM ← getField r.sir "sir"
  let sirLast ← getIndex sirM.getLast?
  let warnSir := if sirLast.any (fun x => x.isNone) then ["NaN SIR: " ++ alg] else []
  let warns := warnRuntime ++ warnSdr ++ warnSir
  match tryImprovements sdrM sirM sdrLast sirLast with
  | some (sdrF, sirF, sdrImp, sirImp) =>
      pure (warns, some ⟨alg, nt, nm, rt, si, sd, runtimeCol, sdrF, sirF, sdrImp, sirImp⟩)
  | none => pure (warns, none)

/-- The whole aggregation loop: records processed in order, rows of
dropped records omitted, any exception aborting the run. -/
def buildTable (fs? : Option ℚ) : List RawRecord → Except String (List String × List AggregatedRow)
  | [] => Except.ok ([], [])
  | r :: rs => do
    let (w, row?) ← processRecord fs? r
    let (ws, rows) ← buildTable fs? rs
    Except.ok (w ++ ws, (match row? with | some row => row :: rows | none => rows))

/-- Contents of a `parameters.json` file (only the fields the modelled
core reads: the sampling rate and the labelling name). -/
structure SimParams where
  fs : ℚ
  label : String

/-- One run directory: whether `data.json` exists, its contents (a list
of segments, each a list of records), and the `parameters.json`
contents. -/
structure RunDir where
  dirname : String
  hasDataFile : Bool
  segments : List (List RawRecord)
  params : SimParams

/-- The directory loop (lines 156-169 of the source): for each
directory require `data.json` (raising `ValueError` otherwise) and then
overwrite the parameters state with this directory's `parameters.json`.
Returns the surviving parameters and the data-file contents in order. -/
def scanDirs : List RunDir → Option SimParams →
    Except String (Option SimParams × List (List (List RawRecord)))
  | [], ps => Except.ok (ps, [])
  | d :: ds, ps =>
    if d.hasDataFile then do
      let (ps', files) ← scanDirs ds (some d.params)
      Except.ok (ps', d.segments :: files)
    else Except.error ("File " ++ d.dirname ++ "/data.json doesnt exist")

/-- The non-plotting pipeline: scan the directories, flatten all
segments of all data files into one record list, and aggregate using
the sampling rate of the parameters that survived the directory loop. -/
def pipeline (dirs : List RunDir) :
    Except String (Option SimParams × List String × List AggregatedRow) := do
  let (ps, files) ← scanDirs dirs none
  let records := (files.map List.flatten).flatten
  let (w, rows) ← buildTable (ps.map SimParams.fs) records
  Except.ok (ps, w, rows)

/-- A pivoted median frame as consumed by `proc_ratio`: the column
level values (`Sources`, sorted unique), the row index (`Mics`), and
the entries (`none` = NaN / missing). -/
structure RatioFrame where
  sources : List ℕ
  mics : List ℕ
  entry : ℕ → ℕ → Option ℚ

/-- Ordering of ratio points by their first coordinate. -/
def leFst (p q : ℚ × ℚ) : Prop := p.1 ≤ q.1

instance : DecidableRel leFst := fun p q => inferInstanceAs (Decidable (p.1 ≤ q.1))

instance : IsTotal (ℚ × ℚ) leFst := ⟨fun p q => le_total p.1 q.1⟩

instance : IsTrans (ℚ × ℚ) leFst := ⟨fun _ _ _ h h' => le_trans h h'⟩

/-- The point-collection loop of `proc_ratio` (lines 475-479): for each
source count (outer) and each microphone count (inner), skip NaN
entries and emit the point `(src/mic, entry)`. -/
def ratioPoints (r : RatioFrame) : List (ℚ × ℚ) :=
  r.sources.flatMap (fun src =>
    r.mics.filterMap (fun mic =>
      match r.entry src mic with
      | some v => some ((src : ℚ) / (mic : ℚ), v)
      | none => none))

/-- `proc_ratio` (lines 474-482 of the source): collect the non-NaN
points and sort them by first coordinate.  When no point survives,
`np.array(pts)` is 1-D empty and `arr[:, 0]` raises `IndexError`,
modelled by `none`.  The sort is modelled by a stable sort on the first
coordinate (`np.argsort` is deterministic; ties are a tie-break). -/
def proc_ratio (r : RatioFrame) : Option (List (ℚ × ℚ)) :=
  match ratioPoints r with
  | [] => none
  | p :: ps => some ((p :: ps).insertionSort leFst)

/-- Elementwise division of two pandas frames over the same index and
columns (`pvtb[B] / pvtb[A]`): NaN wherever either operand is NaN. -/
def dfDiv (b a : ℕ → ℕ → Option ℚ) : ℕ → ℕ → Option ℚ := fun src mic =>
  match b src mic, a src mic with
  | some x, some y => some (x / y)
  | _, _ => none

/-- Specification-side point list, following the spec's words: one
point `(sources/mics, median(B)/median(A))` for every (sources, mics)
coordinate at which both tables have an existing value, in coordinate
order.  To be compared with what `proc_ratio` computes. -/
def ratioPointsSpec (sources mics : List ℕ) (a b : ℕ → ℕ → Option ℚ) : List (ℚ × ℚ) :=
  sources.flatMap (fun src =>
    mics.filterMap (fun mic =>
      match b src mic, a src mic with
      | some x, some y => some ((src : ℚ) / (mic : ℚ), x / y)
      | _, _ => none))

/-- Modelled from the spec: the pickle cache artifact written by
`df.to_pickle` and read back by `pd.read_pickle` (the serializer itself
is the external pandas/pickle library, not part of the source).  The
spec describes the artifact as the table's column labels, in order,
together with the cell values of every row. -/
inductive PickleCell where
  | cellStr : String → PickleCell
  | cellNat : ℕ → PickleCell
  | cellInt : ℤ → PickleCell
  | cellRat : ℚ → PickleCell
  | cellFloat : FV → PickleCell

/-- The column labels of the aggregated table, in order (lines 194-206
of the source). -/
def tableColumns : List String :=
  ["Algorithm", "Sources", "Mics", "RT60", "SINR", "seed", "Runtime [s]",
   "SDR [dB]", "SIR [dB]", "SDR Improvement [dB]", "SIR Improvement [dB]"]

/-- Modelled from the spec: one serialized row of the cache artifact. -/
def encodeRow (r : AggregatedRow) : List PickleCell :=
  [.cellStr r.algorithm, .cellNat r.sources, .cellNat r.mics, .cellRat r.rt60,
   .cellRat r.sinr, .cellInt r.seed, .cellFloat r.runtime, .cellFloat r.sdrFinal,
   .cellFloat r.sirFinal, .cellFloat r.sdrImp, .cellFloat r.sirImp]

/-- Modelled from the spec: the serialized cache artifact (column
labels plus cell rows). -/
structure PickleFrame where
  columns : List String
  rows : List (List PickleCell)

/-- Modelled from the spec: `df.to_pickle` on the aggregated table. -/
def toPickle (t : List AggregatedRow) : PickleFrame :=
  ⟨tableColumns, t.map encodeRow⟩

/-- Modelled from the spec: decoding one serialized row back into an
aggregated row; fails unless the cells have exactly the table's shape. -/
def decodeRow (cells : List PickleCell) : Option AggregatedRow :=
  match cells with
  | [.cellStr a, .cellNat s, .cellNat m, .cellRat rt, .cellRat si, .cellInt sd,
     .cellFloat ru, .cellFloat x, .cellFloat y, .cellFloat xi, .cellFloat yi] =>
      some ⟨a, s, m, rt, si, sd, ru, x, y, xi, yi⟩
  | _ => none

/-- Modelled from the spec: decoding every serialized row in order. -/
def decodeRows : List (List PickleCell) → Option (List AggregatedRow)
  | [] => some []
  | c :: cs => (decodeRow c).bind (fun r => (decodeRows cs).map (fun rs => r :: rs))

/-- Modelled from the spec: `pd.read_pickle` on the cache artifact,
recovering the aggregated table; fails if the artifact does not carry
the aggregated table's columns. -/
def fromPickle (p : PickleFrame) : Option (List AggregatedRow) :=
  if p.columns = tableColumns then decodeRows p.rows else none

/-- A well-formed record: two iterations, two sources, all finite. -/
def recGood : RawRecord :=
  ⟨some "auxiva_laplace", some 1, some 2, some 1, some 5, some 7, some (some 2), some 16000,
   some [[some 10, some 12], [some 14, some 18]],
   some [[some 5, some 5], [some 9, some 13]]⟩

/-- A record whose `sdr` field is the empty sequence. -/
def recEmptySdr : RawRecord :=
  ⟨some "overiva_laplace", some 1, some 2, some 1, some 5, some 3, some (some 1), some 16000,
   some [], some [[some 1]]⟩

/-- A record lacking the required `seed` field. -/
def recMissingSeed : RawRecord :=
  ⟨some "ogive_laplace", some 1, some 2, some 1, some 5, none, some (some 1), some 16000,
   some [[some 1], [some 2]], some [[some 1], [some 2]]⟩

/-- A record with NaN runtime and a NaN entry in the final SDR vector,
otherwise aggregable. -/
def recNaN : RawRecord :=
  ⟨some "overiva_gauss", some 1, some 2, some 1, some 5, some 4, some none, some 16000,
   some [[some 1], [none]], some [[some 2], [some 3]]⟩

/-- A run directory with a well-formed record and fs = 8000. -/
def dirA : RunDir := ⟨"sim1", true, [[recGood]], ⟨8000, "one"⟩⟩

/-- A run directory with a NaN-laden record and fs = 16000. -/
def dirB : RunDir := ⟨"sim2", true, [[recNaN]], ⟨16000, "two"⟩⟩

/-- A run directory whose `data.json` is missing. -/
def dirBad : RunDir := ⟨"sim3", false, [], ⟨16000, "three"⟩⟩

/-- The baseline median table of the specification example:
entries at (sources 1, mics 2) and (sources 2, mics 4). -/
def tableA : ℕ → ℕ → Option ℚ := fun src mic =>
  if src = 1 ∧ mic = 2 then some 4 else if src = 2 ∧ mic = 4 then some 8 else none

/-- The comparison median table of the specification example. -/
def tableB : ℕ → ℕ → Option ℚ := fun src mic =>
  if src = 1 ∧ mic = 2 then some 2 else if src = 2 ∧ mic = 4 then some 8 else none

/-- A baseline table supported only at (1, 2). -/
def tableA10 : ℕ → ℕ → Option ℚ := fun src mic =>
  if src = 1 ∧ mic = 2 then some 4 else none

/-- A comparison table supported only at (2, 4): the elementwise ratio
with `tableA10` is NaN everywhere. -/
def tableB10 : ℕ → ℕ → Option ℚ := fun src mic =>
  if src = 2 ∧ mic = 4 then some 8 else none

@[simp]
theorem getField_some {α : Type} (v : α) (n : String) : getField (some v) n = Except.ok v := rfl

@[simp]
theorem getField_none {α : Type} (n : String) :
    getField (none : Option α) n = Except.error ("KeyError: " ++ n) := rfl

@[simp]
theorem getIndex_some {α : Type} (v : α) : getIndex (some v) = Except.ok v := rfl

@[simp]
theorem getIndex_none {α : Type} :
    getIndex (none : Option α) = Except.error "IndexError: list index out of range" := rfl

@[simp]
theorem ok_bind {α β : Type} (a : α) (f : α → Except String β) :
    (Except.ok a : Except String α) >>= f = f a := rfl

@[simp]
theorem error_bind {α β : Type} (e : String) (f : α → Except String β) :
    (Except.error e : Except String α) >>= f = Except.error e := rfl

/-- Claim C9: a record lacking a required field (here `seed`) makes the
aggregation abort with an uncaught lookup error: the whole run fails,
even though another record was aggregated fine before it, instead of
the bad record being dropped. -/
theorem missing_field_aborts :
    buildTable (some 16000) [recGood, recMissingSeed] = Except.error "KeyError: seed" := rfl

/-- Claim C2 counterexample: a record whose `sdr` field is the empty
sequence is not silently dropped; the aggregation raises an uncaught
IndexError (the final-iteration NaN check indexes `sdr[-1]` outside the
guarded block), so an error is raised and no table is produced. -/
theorem empty_sdr_errors :
    buildTable (some 16000) [recEmptySdr] =
      Except.error "IndexError: list index out of range" := rfl

/-- Evaluation of one aggregation-loop iteration when every required
field is present and both metric sequences are nonempty: the warnings
are the three NaN checks and the row is produced exactly when the
guarded improvement computation succeeds. -/
theorem processRecord_eval (fs : ℚ) (r : RawRecord)
    (alg : String) (nt nm : ℕ) (rt si : ℚ) (sd : ℤ) (rtv : FV) (ns : ℕ)
    (sdrM sirM : List (List FV)) (sdrL sirL : List FV)
    (h1 : r.algorithm = some alg) (h2 : r.n_targets = some nt)
    (h3 : r.n_mics = some nm) (h4 : r.rt60 = some rt)
    (h5 : r.sinr = some si) (h6 : r.seed = some sd)
    (h7 : r.runtime = some rtv) (h8 : r.n_samples = some ns)
    (h9 : r.sdr = some sdrM) (h10 : r.sir = some sirM)
    (hL : sdrM.getLast? = some sdrL) (hM : sirM.getLast? = some sirL) :
    processRecord (some fs) r = Except.ok
      ((if rtv.isNone then ["NaN runtime: " ++ alg] else []) ++
        (if sdrL.any (fun x => x.isNone) then ["NaN SDR: " ++ alg] else []) ++
        (if sirL.any (fun x => x.isNone) then ["NaN SIR: " ++ alg] else []),
       (tryImprovements sdrM sirM sdrL sirL).map (fun q =>
          ⟨alg, nt, nm, rt, si, sd, rtv.map (fun x => x / (ns : ℚ) * fs),
           q.1, q.2.1, q.2.2.1, q.2.2.2⟩)) := by
  simp only [processRecord, h1, h2, h3, h4, h5, h6, h7, h8, h9, h10, hL, hM,
    getField_some, getIndex_some, ok_bind]
  cases htry : tryImprovements sdrM sirM sdrL sirL with
  | none =>
    simp only [htry, Option.map_none]
    rfl
  | some q =>
    obtain ⟨a, b, c, d⟩ := q
    simp only [htry, Option.map_some]
    rfl

/-- Claim C2 (amended): a record with an empty `sdr` sequence is not
dropped; processing it raises an uncaught IndexError, aborting the
whole aggregation with no table produced. -/
theorem empty_sdr_aborts (fs : ℚ) (r : RawRecord)
    (alg : String) (nt nm : ℕ) (rt si : ℚ) (sd : ℤ) (rtv : FV) (ns : ℕ)
    (h1 : r.algorithm = some alg) (h2 : r.n_targets = some nt)
    (h3 : r.n_mics = some nm) (h4 : r.rt60 = some rt)
    (h5 : r.sinr = some si) (h6 : r.seed = some sd)
    (h7 : r.runtime = some rtv) (h8 : r.n_samples = some ns)
    (h9 : r.sdr = some []) :
    processRecord (some fs) r = Except.error "IndexError: list index out of range" ∧
    ∀ rs : List RawRecord, buildTable (some fs) (r :: rs) =
      Except.error "IndexError: list index out of range" := by
  have hp : processRecord (some fs) r =
      Except.error "IndexError: list index out of range" := by
    simp only [processRecord, h1, h2, h3, h4, h5, h6, h7, h8, h9,
      getField_some, ok_bind, List.getLast?_nil, getIndex_none, error_bind]
  exact ⟨hp, fun rs => by simp only [buildTable, hp, error_bind]⟩

/-- Witness for `empty_sdr_aborts` at the concrete empty-`sdr` record. -/
theorem empty_sdr_aborts_witness :
    processRecord (some 16000) recEmptySdr =
      Except.error "IndexError: list index out of range" ∧
    ∀ rs : List RawRecord, buildTable (some 16000) (recEmptySdr :: rs) =
      Except.error "IndexError: list index out of range" :=
  empty_sdr_aborts 16000 recEmptySdr "overiva_laplace" 1 2 1 5 3 (some 1) 16000
    rfl rfl rfl rfl rfl rfl rfl rfl rfl

theorem mem_of_getLast?_eq {α : Type} {l : List α} {a : α} (h : l.getLast? = some a) :
    a ∈ l := by
  induction l with
  | nil => simp at h
  | cons x xs ih =>
    cases xs with
    | nil => simp at h; simp [h]
    | cons y ys =>
      rw [List.getLast?_cons_cons] at h
      exact List.mem_cons_of_mem x (ih h)

theorem mem_of_head?_eq {α : Type} {l : List α} {a : α} (h : l.head? = some a) : a ∈ l := by
  cases l with
  | nil => simp at h
  | cons x xs => simp at h; simp [h]

theorem allSome_map_some (xs : List ℚ) : allSome (xs.map some) = some xs := by
  induction xs with
  | nil => rfl
  | cons x l ih => simp [allSome, ih]

theorem fmean_map_some (xs : List ℚ) (h : xs ≠ []) :
    fmean (xs.map some) = some (qmean xs) := by
  simp [fmean, allSome_map_some, qmean, List.length_eq_zero, h]

theorem zipWith_fsub_map_some (xs ys : List ℚ) :
    List.zipWith fsub (xs.map some) (ys.map some) =
      (List.zipWith (fun a b => a - b) xs ys).map some := by
  induction xs generalizing ys with
  | nil => simp
  | cons x l ih =>
    cases ys with
    | nil => simp
    | cons y m => simp [fsub, ih]

theorem sum_zipWith_sub (xs ys : List ℚ) (h : xs.length = ys.length) :
    (List.zipWith (fun a b => a - b) xs ys).sum = xs.sum - ys.sum := by
  induction xs generalizing ys with
  | nil =>
    cases ys with
    | nil => simp
    | cons y m => simp at h
  | cons x l ih =>
    cases ys with
    | nil => simp at h
    | cons y m =>
      simp only [List.zipWith_cons_cons, List.sum_cons]
      rw [ih m (by simpa using h)]
      ring

theorem fmean_diff (xs ys : List ℚ) (k : ℕ) (hx : xs.length = k) (hy : ys.length = k)
    (hk : 0 < k) :
    fmean (List.zipWith fsub (xs.map some) (ys.map some)) = some (qmean xs - qmean ys) := by
  have hlen : (List.zipWith (fun a b => a - b) xs ys).length = k := by
    rw [List.length_zipWith, hx, hy]; exact min_self k
  have hne : List.zipWith (fun a b => a - b) xs ys ≠ [] := by
    intro h0
    rw [h0] at hlen
    simp at hlen
    omega
  rw [zipWith_fsub_map_some, fmean_map_some _ hne]
  unfold qmean
  rw [hlen, hx, hy, sum_zipWith_sub xs ys (by rw [hx, hy]), sub_div]

theorem bsub_map_some (xs ys : List ℚ) (h : xs.length = ys.length) :
    bsub (xs.map some) (ys.map some) =
      some (List.zipWith fsub (xs.map some) (ys.map some)) := by
  simp [bsub, h]

/-- Claim C3: for a record whose `sdr` and `sir` are sequences of at
least two same-length vectors of finite values, the emitted SDR
improvement equals mean(final) minus mean(initial), computed
independently, and likewise for SIR. -/
theorem improvement_is_mean_diff (fs : ℚ) (r : RawRecord)
    (alg : String) (nt nm : ℕ) (rt si : ℚ) (sd : ℤ) (rtv : FV) (ns k : ℕ)
    (S I : List (List ℚ)) (Sf Sl If Il : List ℚ)
    (h1 : r.algorithm = some alg) (h2 : r.n_targets = some nt)
    (h3 : r.n_mics = some nm) (h4 : r.rt60 = some rt)
    (h5 : r.sinr = some si) (h6 : r.seed = some sd)
    (h7 : r.runtime = some rtv) (h8 : r.n_samples = some ns)
    (hsdr : r.sdr = some (S.map (fun v => v.map some)))
    (hsir : r.sir = some (I.map (fun v => v.map some)))
    (hS2 : 2 ≤ S.length) (hI2 : 2 ≤ I.length)
    (hSf : S.head? = some Sf) (hSl : S.getLast? = some Sl)
    (hIf : I.head? = some If) (hIl : I.getLast? = some Il)
    (hSk : ∀ v ∈ S, v.length = k) (hIk : ∀ v ∈ I, v.length = k) (hk : 0 < k) :
    ∃ w row, processRecord (some fs) r = Except.ok (w, some row) ∧
      row.sdrImp = some (qmean Sl - qmean Sf) ∧
      row.sirImp = some (qmean Il - qmean If) := by
  have hLenSf : Sf.length = k := hSk Sf (mem_of_head?_eq hSf)
  have hLenSl : Sl.length = k := hSk Sl (mem_of_getLast?_eq hSl)
  have hLenIf : If.length = k := hIk If (mem_of_head?_eq hIf)
  have hLenIl : Il.length = k := hIk Il (mem_of_getLast?_eq hIl)
  have hL : (S.map (fun v => v.map some)).getLast? = some (Sl.map some) := by
    rw [List.getLast?_map, hSl]; rfl
  have hM : (I.map (fun v => v.map some)).getLast? = some (Il.map some) := by
    rw [List.getLast?_map, hIl]; rfl
  have htry : tryImprovements (S.map (fun v => v.map some)) (I.map (fun v => v.map some))
      (Sl.map some) (Il.map some) =
      some (fmean (Sl.map some), fmean (Il.map some),
        some (qmean Sl - qmean Sf), some (qmean Il - qmean If)) := by
    have hhS : (S.map (fun v => v.map some)).head? = some (Sf.map some) := by
      rw [List.head?_map, hSf]; rfl
    have hhI : (I.map (fun v => v.map some)).head? = some (If.map some) := by
      rw [List.head?_map, hIf]; rfl
    rw [tryImprovements]
    rw [hhS, hhI]
    simp only [Option.bind_eq_bind, Option.some_bind]
    rw [bsub_map_some Sl Sf (hLenSl.trans hLenSf.symm),
      bsub_map_some Il If (hLenIl.trans hLenIf.symm)]
    simp only [Option.some_bind]
    rw [fmean_diff Sl Sf k hLenSl hLenSf hk, fmean_diff Il If k hLenIl hLenIf hk]
    rfl
  have he := processRecord_eval fs r alg nt nm rt si sd rtv ns
    (S.map (fun v => v.map some)) (I.map (fun v => v.map some))
    (Sl.map some) (Il.map some) h1 h2 h3 h4 h5 h6 h7 h8 hsdr hsir hL hM
  rw [htry] at he
  exact ⟨_, _, he, rfl, rfl⟩

/-- Witness for `improvement_is_mean_diff` at the concrete record
`recGood`: SDR improvement (14+18)/2 - (10+12)/2 = 5, SIR improvement
(9+13)/2 - (5+5)/2 = 6. -/
theorem improvement_is_mean_diff_witness :
    ∃ w row, processRecord (some 16000) recGood = Except.ok (w, some row) ∧
      row.sdrImp = some 5 ∧ row.sirImp = some 6 := by
  obtain ⟨w, row, hp, hsdr, hsir⟩ := improvement_is_mean_diff 16000 recGood
    "auxiva_laplace" 1 2 1 5 7 (some 2) 16000 2
    [[10, 12], [14, 18]] [[5, 5], [9, 13]] [10, 12] [14, 18] [5, 5] [9, 13]
    rfl rfl rfl rfl rfl rfl rfl rfl rfl rfl (by norm_num) (by norm_num)
    rfl rfl rfl rfl (by intro v hv; fin_cases hv <;> rfl)
    (by intro v hv; fin_cases hv <;> rfl) (by norm_num)
  refine ⟨w, row, hp, ?_, ?_⟩
  · rw [hsdr]; norm_num [qmean]
  · rw [hsir]; norm_num [qmean]

/-- Claim C4: the `Runtime [s]` column of every surviving record with a
finite runtime equals runtime / n_samples * fs. -/
theorem runtime_column_normalized (fs rtq : ℚ) (r : RawRecord)
    (alg : String) (nt nm : ℕ) (rt si : ℚ) (sd : ℤ) (ns : ℕ)
    (sdrM sirM : List (List FV)) (sdrL sirL : List FV) (quad : FV × FV × FV × FV)
    (h1 : r.algorithm = some alg) (h2 : r.n_targets = some nt)
    (h3 : r.n_mics = some nm) (h4 : r.rt60 = some rt)
    (h5 : r.sinr = some si) (h6 : r.seed = some sd)
    (h7 : r.runtime = some (some rtq)) (h8 : r.n_samples = some ns)
    (h9 : r.sdr = some sdrM) (h10 : r.sir = some sirM)
    (hL : sdrM.getLast? = some sdrL) (hM : sirM.getLast? = some sirL)
    (htry : tryImprovements sdrM sirM sdrL sirL = some quad) :
    ∃ w row, processRecord (some fs) r = Except.ok (w, some row) ∧
      row.runtime = some (rtq / (ns : ℚ) * fs) := by
  have he := processRecord_eval fs r alg nt nm rt si sd (some rtq) ns sdrM sirM sdrL sirL
    h1 h2 h3 h4 h5 h6 h7 h8 h9 h10 hL hM
  rw [htry] at he
  exact ⟨_, _, he, rfl⟩

/-- Witness for `runtime_column_normalized`: runtime 2.0 with
n_samples = fs = 16000 yields `Runtime [s]` exactly 2. -/
theorem runtime_column_normalized_witness :
    ∃ w row, processRecord (some 16000) recGood = Except.ok (w, some row) ∧
      row.runtime = some 2 := by
  obtain ⟨w, row, hp, hr⟩ := runtime_column_normalized 16000 2 recGood
    "auxiva_laplace" 1 2 1 5 7 16000
    [[some 10, some 12], [some 14, some 18]] [[some 5, some 5], [some 9, some 13]]
    [some 14, some 18] [some 9, some 13] _
    rfl rfl rfl rfl rfl rfl rfl rfl rfl rfl rfl rfl rfl
  refine ⟨w, row, hp, ?_⟩
  rw [hr]; norm_num

/-- Claim C8: NaN runtime or a NaN entry in the final SDR/SIR vector
produces a warning but does not exclude the record: whenever the
guarded improvement computation succeeds the row is retained, with the
runtime field as-is (NaN stays NaN). -/
theorem nan_warns_record_retained (fs : ℚ) (r : RawRecord)
    (alg : String) (nt nm : ℕ) (rt si : ℚ) (sd : ℤ) (rtv : FV) (ns : ℕ)
    (sdrM sirM : List (List FV)) (sdrL sirL : List FV) (quad : FV × FV × FV × FV)
    (h1 : r.algorithm = some alg) (h2 : r.n_targets = some nt)
    (h3 : r.n_mics = some nm) (h4 : r.rt60 = some rt)
    (h5 : r.sinr = some si) (h6 : r.seed = some sd)
    (h7 : r.runtime = some rtv) (h8 : r.n_samples = some ns)
    (h9 : r.sdr = some sdrM) (h10 : r.sir = some sirM)
    (hL : sdrM.getLast? = some sdrL) (hM : sirM.getLast? = some sirL)
    (htry : tryImprovements sdrM sirM sdrL sirL = some quad) :
    ∃ w row, processRecord (some fs) r = Except.ok (w, some row) ∧
      row.runtime = rtv.map (fun x => x / (ns : ℚ) * fs) ∧
      (rtv = none → row.runtime = none ∧ ("NaN runtime: " ++ alg) ∈ w) ∧
      (sdrL.any (fun x => x.isNone) = true → ("NaN SDR: " ++ alg) ∈ w) ∧
      (sirL.any (fun x => x.isNone) = true → ("NaN SIR: " ++ alg) ∈ w) := by
  have he := processRecord_eval fs r alg nt nm rt si sd rtv ns sdrM sirM sdrL sirL
    h1 h2 h3 h4 h5 h6 h7 h8 h9 h10 hL hM
  rw [htry] at he
  refine ⟨_, _, he, rfl, ?_, ?_, ?_⟩
  · intro h
    subst h
    exact ⟨rfl, by simp⟩
  · intro h
    simp [h]
  · intro h
    simp [h]

/-- Witness for `nan_warns_record_retained` at `recNaN`: both warnings
fire, the record is kept, and its runtime stays NaN. -/
theorem nan_warns_record_retained_witness :
    ∃ w row, processRecord (some 16000) recNaN = Except.ok (w, some row) ∧
      row.runtime = none ∧ ("NaN runtime: " ++ "overiva_gauss") ∈ w ∧
      ("NaN SDR: " ++ "overiva_gauss") ∈ w := by
  obtain ⟨w, row, hp, _, hnan, hsdr, _⟩ := nan_warns_record_retained 16000 recNaN
    "overiva_gauss" 1 2 1 5 4 none 16000
    [[some 1], [none]] [[some 2], [some 3]] [none] [some 3] _
    rfl rfl rfl rfl rfl rfl rfl rfl rfl rfl rfl rfl rfl
  obtain ⟨hru, hw⟩ := hnan rfl
  exact ⟨w, row, hp, hru, hw, hsdr rfl⟩

theorem getLast?_elim_cons (d : RunDir) (ds : List RunDir) (ps0 : Option SimParams) :
    ((d :: ds).getLast?.elim ps0 (fun x => some x.params)) =
      (ds.getLast?.elim (some d.params) (fun x => some x.params)) := by
  cases ds with
  | nil => rfl
  | cons e es =>
    rw [List.getLast?_cons_cons]
    cases h : (e :: es).getLast? with
    | none =>
      rw [List.getLast?_eq_none_iff] at h
      exact absurd h (by simp)
    | some x => rfl

theorem scanDirs_all_ok (dirs : List RunDir) (hall : ∀ d ∈ dirs, d.hasDataFile = true) :
    ∀ ps0 : Option SimParams,
      scanDirs dirs ps0 =
        Except.ok (dirs.getLast?.elim ps0 (fun d => some d.params),
          dirs.map RunDir.segments) := by
  induction dirs with
  | nil => intro ps0; rfl
  | cons d ds ih =>
    intro ps0
    have hd : d.hasDataFile = true := hall d (List.mem_cons_self d ds)
    have ih' := ih (fun x hx => hall x (List.mem_cons_of_mem d hx)) (some d.params)
    simp only [scanDirs, hd, if_true, ih', ok_bind, List.map_cons]
    rw [getLast?_elim_cons]

/-- Claim C5: with several run directories, the parameters that survive
the directory loop are exactly those of the last directory, and that
directory's sampling rate is the one used to normalize the runtime of
every record, including the records of the earlier directories. -/
theorem last_dir_params_used (dirs : List RunDir) (d : RunDir)
    (hlast : dirs.getLast? = some d)
    (hall : ∀ x ∈ dirs, x.hasDataFile = true) :
    scanDirs dirs none = Except.ok (some d.params, dirs.map RunDir.segments) ∧
    pipeline dirs = (buildTable (some d.params.fs)
        ((dirs.map (fun x => x.segments.flatten)).flatten)).map
      (fun wr => (some d.params, wr.1, wr.2)) := by
  have hs := scanDirs_all_ok dirs hall none
  rw [hlast] at hs
  simp only [Option.elim] at hs
  refine ⟨hs, ?_⟩
  unfold pipeline
  rw [hs]
  simp only [ok_bind, List.map_map]
  have hrec : (dirs.map (List.flatten ∘ RunDir.segments)).flatten =
      (dirs.map (fun x => x.segments.flatten)).flatten := rfl
  rw [hrec]
  have hfix : Option.map SimParams.fs (some d.params) = some d.params.fs := rfl
  rw [hfix]
  cases hb : buildTable (some d.params.fs) ((dirs.map (fun x => x.segments.flatten)).flatten) with
  | error e => rfl
  | ok wr => rfl

/-- Witness for `last_dir_params_used` on two concrete directories with
different sampling rates: the second directory's fs = 16000 is the one
applied to all records. -/
theorem last_dir_params_used_witness :
    scanDirs [dirA, dirB] none =
      Except.ok (some dirB.params, [dirA, dirB].map RunDir.segments) ∧
    pipeline [dirA, dirB] = (buildTable (some dirB.params.fs)
        (([dirA, dirB].map (fun x => x.segments.flatten)).flatten)).map
      (fun wr => (some dirB.params, wr.1, wr.2)) :=
  last_dir_params_used [dirA, dirB] dirB rfl
    (by
      intro x hx
      rcases List.mem_cons.mp hx with h | h
      · subst h; rfl
      · rcases List.mem_cons.mp h with h2 | h2
        · subst h2; rfl
        · exact absurd h2 (List.not_mem_nil x))

theorem scanDirs_missing (pre : List RunDir) (d : RunDir) (post : List RunDir)
    (hpre : ∀ x ∈ pre, x.hasDataFile = true) (hd : d.hasDataFile = false) :
    ∀ ps0, scanDirs (pre ++ d :: post) ps0 =
      Except.error ("File " ++ d.dirname ++ "/data.json doesnt exist") := by
  induction pre with
  | nil =>
    intro ps0
    simp only [List.nil_append, scanDirs, hd]
    rfl
  | cons p ps ih =>
    intro ps0
    have hp : p.hasDataFile = true := hpre p (List.mem_cons_self p ps)
    have ih' := ih (fun x hx => hpre x (List.mem_cons_of_mem p hx)) (some p.params)
    simp only [List.cons_append, scanDirs, hp, if_true, List.append_eq, ih', error_bind]

/-- Claim C7: a directory whose `data.json` is missing makes the run
fail immediately with the missing-file error, whatever comes after it,
and no aggregated output is produced. -/
theorem missing_data_file_fatal (pre : List RunDir) (d : RunDir) (post : List RunDir)
    (hpre : ∀ x ∈ pre, x.hasDataFile = true) (hd : d.hasDataFile = false) :
    pipeline (pre ++ d :: post) =
      Except.error ("File " ++ d.dirname ++ "/data.json doesnt exist") := by
  unfold pipeline
  rw [scanDirs_missing pre d post hpre hd none]
  rfl

/-- Witness for `missing_data_file_fatal` with a concrete good
directory followed by one lacking `data.json`. -/
theorem missing_data_file_fatal_witness :
    pipeline [dirA, dirBad] = Except.error "File sim3/data.json doesnt exist" :=
  missing_data_file_fatal [dirA] dirBad []
    (by
      intro x hx
      rcases List.mem_cons.mp hx with h | h
      · subst h; rfl
      · exact absurd h (List.not_mem_nil x))
    rfl

theorem decodeRow_encodeRow (r : AggregatedRow) : decodeRow (encodeRow r) = some r := by
  cases r
  rfl

theorem decodeRows_encode (t : List AggregatedRow) :
    decodeRows (t.map encodeRow) = some t := by
  induction t with
  | nil => rfl
  | cons r rs ih => simp [decodeRows, decodeRow_encodeRow, ih]

/-- Claim C6: serializing the aggregated table to the cache artifact
and deserializing it back is the identity on the table's content, and
the artifact carries the table's columns in order. -/
theorem pickle_roundtrip_id (t : List AggregatedRow) :
    fromPickle (toPickle t) = some t ∧ (toPickle t).columns = tableColumns := by
  refine ⟨?_, rfl⟩
  show (if (toPickle t).columns = tableColumns then decodeRows (toPickle t).rows else none) =
    some t
  have hc : (toPickle t).columns = tableColumns := rfl
  rw [if_pos hc]
  exact decodeRows_encode t

theorem ratioPoints_dfDiv (sources mics : List ℕ) (a b : ℕ → ℕ → Option ℚ) :
    ratioPoints ⟨sources, mics, dfDiv b a⟩ = ratioPointsSpec sources mics a b := by
  unfold ratioPoints ratioPointsSpec
  simp only
  congr 1
  funext src
  congr 1
  funext mic
  cases hb : b src mic <;> cases ha : a src mic <;> simp [dfDiv, hb, ha]

theorem ratioPoints_mem (r : RatioFrame) (s m : ℕ) (v : ℚ) (hs : s ∈ r.sources)
    (hm : m ∈ r.mics) (he : r.entry s m = some v) :
    ((s : ℚ) / (m : ℚ), v) ∈ ratioPoints r := by
  unfold ratioPoints
  rw [List.mem_flatMap]
  refine ⟨s, hs, ?_⟩
  rw [List.mem_filterMap]
  exact ⟨m, hm, by simp [he]⟩

theorem proc_ratio_of_ne_nil (r : RatioFrame) (h : ratioPoints r ≠ []) :
    proc_ratio r = some ((ratioPoints r).insertionSort leFst) := by
  rcases hp : ratioPoints r with _ | ⟨p, ps⟩
  · exact absurd hp h
  · simp [proc_ratio, hp]

/-- Claim C1: applied to the elementwise quotient of a comparison
median table by a baseline median table, `proc_ratio` returns exactly
the points `(sources/mics, median(B)/median(A))` over the coordinates
at which both tables have an existing (finite, and for the baseline
positive) entry, sorted ascending by first coordinate, omitting every
coordinate missing from either table; the function is deterministic,
and on the specification example it yields [[0.5, 0.5], [0.5, 1.0]]. -/
theorem proc_ratio_spec_sound :
    (∀ (sources mics : List ℕ) (a b : ℕ → ℕ → Option ℚ),
      (∀ s ∈ sources, ∀ m ∈ mics, (a s m).all (fun q => decide (0 < q)) = true) →
      (∀ m ∈ mics, 0 < m) →
      (∃ s ∈ sources, ∃ m ∈ mics, (a s m).isSome = true ∧ (b s m).isSome = true) →
      ∃ pts, proc_ratio ⟨sources, mics, dfDiv b a⟩ = some pts ∧
        pts.Perm (ratioPointsSpec sources mics a b) ∧ List.Sorted leFst pts) ∧
    proc_ratio ⟨[1, 2], [2, 4], dfDiv tableB tableA⟩ =
      some [((1 : ℚ) / 2, (1 : ℚ) / 2), ((1 : ℚ) / 2, 1)] := by
  constructor
  · intro sources mics a b hpos hmpos hne
    obtain ⟨s, hs, m, hm, ha, hb⟩ := hne
    obtain ⟨av, hav⟩ := Option.isSome_iff_exists.mp ha
    obtain ⟨bv, hbv⟩ := Option.isSome_iff_exists.mp hb
    have hmem := ratioPoints_mem ⟨sources, mics, dfDiv b a⟩ s m (bv / av) hs hm
      (by simp [dfDiv, hav, hbv])
    have hnn : ratioPoints ⟨sources, mics, dfDiv b a⟩ ≠ [] := by
      intro h0
      rw [h0] at hmem
      exact (List.not_mem_nil _) hmem
    refine ⟨_, proc_ratio_of_ne_nil _ hnn, ?_, ?_⟩
    · rw [ratioPoints_dfDiv sources mics a b]
      exact List.perm_insertionSort leFst _
    · exact List.sorted_insertionSort leFst _
  · have h1 : ratioPoints ⟨[1, 2], [2, 4], dfDiv tableB tableA⟩ =
        [(((1 : ℕ) : ℚ) / ((2 : ℕ) : ℚ), (2 : ℚ) / (4 : ℚ)),
         (((2 : ℕ) : ℚ) / ((4 : ℕ) : ℚ), (8 : ℚ) / (8 : ℚ))] := rfl
    have hle : leFst (((1 : ℕ) : ℚ) / ((2 : ℕ) : ℚ), (2 : ℚ) / (4 : ℚ))
        (((2 : ℕ) : ℚ) / ((4 : ℕ) : ℚ), (8 : ℚ) / (8 : ℚ)) := by
      unfold leFst
      push_cast
      norm_num
    simp only [proc_ratio, h1, List.insertionSort, List.orderedInsert, if_pos hle]
    norm_num

/-- Claim C10: on a pair of tables whose elementwise ratio is NaN at
every coordinate no point survives, and `proc_ratio` raises (indexing
an empty array) instead of returning an empty sequence; it is total on
every frame with at least one non-NaN entry. -/
theorem proc_ratio_all_nan_raises :
    proc_ratio ⟨[1, 2], [2, 4], dfDiv tableB10 tableA10⟩ = none ∧
    ∀ r : RatioFrame, (∃ s ∈ r.sources, ∃ m ∈ r.mics, (r.entry s m).isSome = true) →
      (proc_ratio r).isSome = true := by
  constructor
  · rfl
  · intro r hne
    obtain ⟨s, hs, m, hm, he⟩ := hne
    obtain ⟨v, hv⟩ := Option.isSome_iff_exists.mp he
    have hmem := ratioPoints_mem r s m v hs hm hv
    have hnn : ratioPoints r ≠ [] := by
      intro h0
      rw [h0] at hmem
      exact (List.not_mem_nil _) hmem
    rw [proc_ratio_of_ne_nil r hnn]
    rfl

/-- Witness for the totality part of `proc_ratio_all_nan_raises` at the
example tables, which have a non-NaN ratio entry. -/
theorem proc_ratio_all_nan_raises_witness :
    (proc_ratio ⟨[1, 2], [2, 4], dfDiv tableB tableA⟩).isSome = true :=
  proc_ratio_all_nan_raises.2 ⟨[1, 2], [2, 4], dfDiv tableB tableA⟩
    ⟨1, by norm_num, 2, by norm_num, rfl⟩

/-- Witness for `proc_ratio_spec_sound` at the specification example
tables. -/
theorem proc_ratio_spec_sound_witness :
    ∃ pts, proc_ratio ⟨[1, 2], [2, 4], dfDiv tableB tableA⟩ = some pts ∧
      pts.Perm (ratioPointsSpec [1, 2] [2, 4] tableA tableB) ∧ List.Sorted leFst pts :=
  proc_ratio_spec_sound.1 [1, 2] [2, 4] tableA tableB (by decide) (by decide)
    ⟨1, by norm_num, 2, by norm_num, rfl, rfl⟩
